import Mathlib

/-!
Shallow embedding of the group-membership filter engine and the drag-and-drop
state machines of the cosmic-applibrary repository.

The embedding mirrors the source files:
  * `src/app_group.rs`            : filter types, group matching / filtering, config mutations
  * `src/app.rs`                  : filter recomputation, sorting, drag-finish handling,
                                    debounced background recomputation
  * `src/widgets/application.rs`  : drag-source state machine
  * `src/widgets/group.rs`        : drag-destination state machine

Modelling conventions:
  * Rust `usize` arithmetic is modelled on `Nat` with explicit wrap-around
    modulo `2^64` where the source can underflow (release-build semantics).
  * The filesystem scan performed inside `AppGroup::filtered` is abstracted as an
    explicit list of already-decoded desktop entries handed to the function;
    icon lookup and the returned metadata other than the entry itself are dropped,
    membership in the returned list is preserved exactly.
  * `f32` pointer coordinates are modelled as exact rationals; the claims under
    analysis only concern the comparison structure, not rounding.
  * Rust's `str::to_lowercase` is modelled per `Char.toLower` (agrees on ASCII),
    and byte-wise `str` comparison/containment is modelled on the character
    lists of the strings (UTF-8 order and substring occurrence agree with
    code-point order for valid UTF-8).
-/

namespace CosmicAppLibrary

/-- Lowercasing of a string, as in Rust `str::to_lowercase` (ASCII-faithful). -/
def rustLower (s : String) : List Char :=
  s.data.map Char.toLower

/-- Whether `pat` is a prefix of `hay`. -/
def prefixMatch : List Char → List Char → Bool
  | [], _ => true
  | _ :: _, [] => false
  | a :: as, b :: bs => a == b && prefixMatch as bs

/-- Substring containment, as in Rust `str::contains(&str)`: `pat` occurs
contiguously inside `hay` (the empty pattern always occurs). -/
def rustContains (hay pat : List Char) : Bool :=
  match hay with
  | [] => pat.isEmpty
  | _ :: bs => prefixMatch pat hay || rustContains bs pat

/-- Case-insensitive containment `hay.to_lowercase().contains(&pat.to_lowercase())`
used throughout `app_group.rs`. -/
def lowerContains (hay pat : String) : Bool :=
  rustContains (rustLower hay) (rustLower pat)

/-- Filter of an application group, from `FilterType` in `src/app_group.rs`.
Constructor argument order follows the source field order
(`categories`, `exclude`, `include`). -/
inductive FilterType
  /-- A list of application IDs to include in the group. -/
  | appIds (ids : List String)
  /-- Category filter with per-id override lists (`incl` embeds the source
  field `include`, a Lean keyword). -/
  | categories (categories exclude incl : List String)
  /-- No filter is applied (used for the Home pseudo-group). -/
  | noFilter
  deriving DecidableEq, Repr

/-- A decoded desktop entry, carrying the fields consumed by the filter engine
(`appid`, localized display name, `Exec`, raw `Categories` string, `NoDisplay`).
Name localization is abstracted: `name` is the already-resolved display name. -/
structure DesktopEntry where
  id : String
  name : String
  exec : Option String
  categories : Option String
  no_display : Bool
  deriving DecidableEq, Repr

/-- An application group, from `AppGroup` in `src/app_group.rs`. -/
structure AppGroup where
  name : String
  icon : String
  filter : FilterType
  deriving DecidableEq, Repr

/-- The Home pseudo-group (static `HOME` in `src/app_group.rs`). -/
def HOME : AppGroup :=
  { name := "cosmic-library-home", icon := "user-home-symbolic", filter := .noFilter }

/-- Whether a category string of the filter matches the entry, per the
`Categories` arm of `AppGroup::matches`: the lowercased raw `Categories`
string of the entry must contain the lowercased configured category. -/
def catMatches (entry : DesktopEntry) (cat : String) : Bool :=
  match entry.categories with
  | some cats => lowerContains cats cat
  | none => false

/-- Group membership test, from `AppGroup::matches` in `src/app_group.rs`.
Note that the `Categories` arm consults only `categories` and `include`;
the `exclude` list is ignored by the source (`..` in the pattern). -/
def AppGroup.matches (g : AppGroup) (entry : DesktopEntry) : Bool :=
  match g.filter with
  | .appIds names => names.any (fun id => id == entry.id)
  | .categories cats _exclude incl =>
      cats.any (fun cat => catMatches entry cat) || incl.any (fun id => id == entry.id)
  | .noFilter => true

/-- Search test applied by `AppGroup::filtered` when the input is non-empty:
the lowercased name or the lowercased raw categories string contains the
lowercased input. -/
def searchMatches (entry : DesktopEntry) (input_value : String) : Bool :=
  lowerContains entry.name input_value ||
    (match entry.categories with
     | some cats => lowerContains cats input_value
     | none => false)

/-- Per-entry keep decision of `AppGroup::filtered` in `src/app_group.rs`:
the entry must have an `Exec`, must not be `NoDisplay`, must match the group
filter, and, when the input is non-empty, must pass the search test. -/
def keepEntry (g : AppGroup) (input_value : String) (de : DesktopEntry) : Bool :=
  de.exec.isSome &&
    ((!de.no_display && g.matches de) &&
      (decide (input_value.length = 0) || searchMatches de input_value))

/-- Group filtering, from `AppGroup::filtered` in `src/app_group.rs`, with the
filesystem scan abstracted as the entry list `entries`. -/
def AppGroup.filtered (g : AppGroup) (input_value : String)
    (entries : List DesktopEntry) : List DesktopEntry :=
  entries.filter (keepEntry g input_value)

/-- The persistent group configuration, from `AppLibraryConfig` in
`src/app_group.rs`. -/
structure AppLibraryConfig where
  groups : List AppGroup
  deriving DecidableEq, Repr

/-- Modulus of Rust `usize` (64-bit targets). -/
def USIZE_MOD : Nat := 2 ^ 64

/-- Rust release-build `i - 1` on `usize`: wraps to `usize::MAX` at `i = 0`. -/
def usizeSub1 (i : Nat) : Nat :=
  (i + (USIZE_MOD - 1)) % USIZE_MOD

/-- Modify the element at index `i` of a list, leaving the list unchanged when
the index is out of range (models `Vec::get_mut` / direct indexing guarded by a
bounds check). -/
def listModify (f : α → α) : List α → Nat → List α
  | [], _ => []
  | a :: as, 0 => f a :: as
  | a :: as, n + 1 => a :: listModify f as n

namespace AppLibraryConfig

/-- Group creation, from `AppLibraryConfig::add`: pushes a group with a fresh
empty `AppIds` filter. -/
def add (c : AppLibraryConfig) (name : String) : AppLibraryConfig :=
  { groups := c.groups ++
      [{ name := name, icon := "folder-symbolic", filter := .appIds [] }] }

/-- Group removal, from `AppLibraryConfig::remove`: guarded by
`i - 1 < groups.len()` computed on `usize`. -/
def remove (c : AppLibraryConfig) (i : Nat) : AppLibraryConfig :=
  if usizeSub1 i < c.groups.length then
    { groups := c.groups.eraseIdx (usizeSub1 i) }
  else c

/-- Group renaming, from `AppLibraryConfig::set_name`. -/
def setName (c : AppLibraryConfig) (i : Nat) (name : String) : AppLibraryConfig :=
  if usizeSub1 i < c.groups.length then
    { groups := listModify (fun g => { g with name := name }) c.groups (usizeSub1 i) }
  else c

/-- Per-group part of `AppLibraryConfig::remove_entry` (the `get_mut` block):
`AppIds` retains all other ids; `Categories` retains the id out of both lists
and then pushes it onto `exclude`. -/
def removeEntryGroup (id : String) (g : AppGroup) : AppGroup :=
  match g.filter with
  | .appIds ids => { g with filter := .appIds (ids.filter (fun conf_id => conf_id != id)) }
  | .categories cats exclude incl =>
      { g with filter :=
          (FilterType.categories cats
            (exclude.filter (fun conf_id => conf_id != id) ++ [id])
            (incl.filter (fun conf_id => conf_id != id))) }
  | .noFilter => g

/-- Second block of `AppLibraryConfig::remove_entry`: retains the id out of an
`AppIds` filter once more (a redundant repetition present in the source). -/
def removeEntryGroupAgain (id : String) (g : AppGroup) : AppGroup :=
  match g.filter with
  | .appIds ids => { g with filter := .appIds (ids.filter (fun x => x != id)) }
  | _ => g

/-- Entry removal, from `AppLibraryConfig::remove_entry` in `src/app_group.rs`. -/
def removeEntry (c : AppLibraryConfig) (i : Nat) (id : String) : AppLibraryConfig :=
  let c1 : AppLibraryConfig :=
    { groups := listModify (removeEntryGroup id) c.groups (usizeSub1 i) }
  if usizeSub1 i < c1.groups.length then
    { groups := listModify (removeEntryGroupAgain id) c1.groups (usizeSub1 i) }
  else c1

/-- Per-group part of `AppLibraryConfig::add_entry`: `AppIds` pushes the id if
absent; `Categories` retains the id out of both lists and pushes it onto
`include`. -/
def addEntryGroup (id : String) (g : AppGroup) : AppGroup :=
  match g.filter with
  | .appIds ids =>
      if ids.all (fun s => s != id) then { g with filter := .appIds (ids ++ [id]) } else g
  | .categories cats exclude incl =>
      { g with filter :=
          (FilterType.categories cats
            (exclude.filter (fun conf_id => conf_id != id))
            (incl.filter (fun conf_id => conf_id != id) ++ [id])) }
  | .noFilter => g

/-- Entry addition, from `AppLibraryConfig::add_entry` in `src/app_group.rs`. -/
def addEntry (c : AppLibraryConfig) (i : Nat) (id : String) : AppLibraryConfig :=
  if usizeSub1 i < c.groups.length then
    { groups := listModify (addEntryGroup id) c.groups (usizeSub1 i) }
  else c

/-- User-group filtering, from `AppLibraryConfig::_filtered`. -/
def filteredUser (c : AppLibraryConfig) (i : Nat) (input_value : String)
    (entries : List DesktopEntry) : List DesktopEntry :=
  ((c.groups.get? i).map (fun g => g.filtered input_value entries)).getD []

/-- Combined-index filtering, from `AppLibraryConfig::filtered`: index `0` is
the Home pseudo-group, the rest address user groups. -/
def filtered (c : AppLibraryConfig) (i : Nat) (input_value : String)
    (entries : List DesktopEntry) : List DesktopEntry :=
  if i = 0 then HOME.filtered input_value entries
  else c.filteredUser (i - 1) input_value entries

end AppLibraryConfig

/-! Application layer, from `src/app.rs`. -/

/-- Lexicographic ordering of character lists by code point; agrees with Rust's
(case-sensitive, byte-wise) `String::cmp` on valid UTF-8. -/
def strLeB : List Char → List Char → Bool
  | [], _ => true
  | _ :: _, [] => false
  | a :: as, b :: bs =>
      if a.toNat < b.toNat then true
      else if b.toNat < a.toNat then false
      else strLeB as bs

/-- Ordering of entries used by the `sort_by(|a, b| a.name.cmp(&b.name))` calls
in `CosmicAppLibrary::load_apps` and `CosmicAppLibrary::filter_apps`. -/
def nameLe (a b : DesktopEntry) : Prop :=
  strLeB a.name.data b.name.data = true

instance : DecidableRel nameLe := fun a b => decEq (strLeB a.name.data b.name.data) true

/-- The filtered list produced by the background task of
`CosmicAppLibrary::filter_apps`: `config.filtered(cur_group, &input, &all_entries)`
followed by a stable sort on the display name. Rust's stable `sort_by` is
modelled by insertion sort (stable sorts under one total preorder agree). -/
def filterAppsResult (config : AppLibraryConfig) (cur_group : Nat) (input : String)
    (all_entries : List DesktopEntry) : List DesktopEntry :=
  List.insertionSort nameLe (config.filtered cur_group input all_entries)

/-- State of the debounced filter recomputation in `CosmicAppLibrary`
(`src/app.rs`): the `waiting_for_filtered` flag and the current search text,
plus an instrumentation field `inflight` recording the search texts of the
background tasks currently running (the code itself keeps tasks in the
runtime; the list makes them visible to the proofs). -/
structure SchedState where
  waiting_for_filtered : Bool
  search_value : String
  inflight : List String
  deriving DecidableEq, Repr

/-- A recompute request, from `CosmicAppLibrary::filter_apps`: if no task is in
flight, mark one in flight and start a task capturing the current search text;
otherwise do nothing. The returned Bool reports whether a task was started. -/
def filterApps (st : SchedState) : SchedState × Bool :=
  if st.waiting_for_filtered then (st, false)
  else
    ({ st with waiting_for_filtered := true,
               inflight := st.inflight ++ [st.search_value] }, true)

/-- Completion of a recompute whose captured search text was `input`, from the
`Message::FilterApps` handler: the task leaves flight, the flag is cleared, and
a fresh request is made when the current search text has changed. -/
def onFilterApps (st : SchedState) (input : String) : SchedState × Bool :=
  let st1 : SchedState :=
    { st with waiting_for_filtered := false, inflight := st.inflight.drop 1 }
  if st.search_value ≠ input then filterApps st1 else (st1, false)

/-- External events driving the recompute scheduler: a plain request (as made
by the group-mutation handlers), a search-text change (the
`Message::InputChanged` handler sets the text and then requests), and the
completion message of an in-flight task. A completion whose text does not match
the oldest in-flight task is ignored (such an event cannot be delivered). -/
inductive SchedEvent
  | request
  | setSearch (s : String)
  | complete (s : String)

/-- One scheduler step. -/
def schedStep (st : SchedState) : SchedEvent → SchedState
  | .request => (filterApps st).1
  | .setSearch s => (filterApps { st with search_value := s }).1
  | .complete s =>
      if st.inflight.head? = some s then (onFilterApps st s).1 else st

/-- Scheduler invariant: at most one task is in flight, and the
`waiting_for_filtered` flag is set exactly when one is. -/
def SchedInv (st : SchedState) : Prop :=
  st.inflight.length ≤ 1 ∧ (st.waiting_for_filtered = true ↔ st.inflight ≠ [])

/-- Application state consumed by the `Message::FinishDrag` handler in
`src/app.rs`. -/
structure AppState where
  config : AppLibraryConfig
  cur_group : Nat
  entry_path_input : List DesktopEntry
  dnd_icon : Option Nat
  deriving DecidableEq, Repr

/-- The `Message::FinishDrag(copy)` handler of `src/app.rs`: when `copy` is
false, take `dnd_icon` and remove the indexed entry from the current group;
when `copy` is true, do nothing. -/
def finishDrag (copy : Bool) (st : AppState) : AppState :=
  if copy then st
  else
    match st.dnd_icon.bind (fun i => st.entry_path_input.get? i) with
    | some info =>
        { st with config := st.config.removeEntry st.cur_group info.id, dnd_icon := none }
    | none => { st with dnd_icon := none }

/-! Drag-source state machine, from `src/widgets/application.rs`. -/

/-- The wire mime type (`MIME_TYPE` in `src/widgets/application.rs`). -/
def MIME_TYPE : String := "text/uri-list"

/-- The activation threshold (`DRAG_THRESHOLD: f32 = 25.0`), modelled exactly. -/
def DRAG_THRESHOLD : ℚ := 25

/-- A pointer position; `f32` coordinates modelled as exact rationals. -/
structure Point where
  x : ℚ
  y : ℚ
  deriving DecidableEq, Repr

/-- A set of drag-and-drop actions (`DndAction` bitflags). -/
structure DndActionSet where
  copy : Bool
  moveAct : Bool
  ask : Bool
  deriving DecidableEq, Repr

/-- The empty action set (`DndAction::empty()`). -/
def DndActionSet.emptySet : DndActionSet := ⟨false, false, false⟩

/-- The singleton `DndAction::Move`. -/
def DndActionSet.moveOnly : DndActionSet := ⟨false, true, false⟩

/-- The set `DndAction::Copy.union(DndAction::Move)`. -/
def DndActionSet.copyMove : DndActionSet := ⟨true, true, false⟩

/-- Drag-source widget state (`DraggingState` in `src/widgets/application.rs`). -/
inductive DraggingState
  | idle
  | pressed (start : Point)
  | dragging (path : String) (copy : Bool)
  deriving DecidableEq, Repr

/-- Events observed by the drag source: a left-button/finger press (with
whether the cursor is over the widget bounds), a cursor/finger move, the
data-source protocol events, or anything else. The cursor position is
`Option`al, as `cursor_position.position()` is. -/
inductive SrcEvent
  | press (over : Bool) (pos : Option Point)
  | cursorMoved (pos : Option Point)
  | dndFinished
  | dndCancelled
  | actionAccepted (a : DndActionSet)
  | other

/-- Messages published by the drag source via its callbacks, plus the deferred
`StartDnd` action it produces. -/
inductive SrcOut
  | createDndSource
  | startDnd (mime_types : List String) (actions : DndActionSet) (data : String)
  | finish (copy : Bool)
  | cancel
  deriving DecidableEq, Repr

/-- One step of the drag-source machine, from `ApplicationButton::on_event`
(`src/widgets/application.rs`, the block guarded by all four callbacks being
set, as they are for every draggable tile). `path` is the widget's entry path,
the payload of the produced `StartDnd` action. -/
def srcOnEvent (path : String) (st : DraggingState) (ev : SrcEvent) :
    DraggingState × List SrcOut :=
  match st with
  | .idle =>
      match ev with
      | .press true pos => (.pressed (pos.getD ⟨0, 0⟩), [])
      | _ => (.idle, [])
  | .dragging applet copy =>
      match ev with
      | .dndFinished => (.idle, [.finish copy])
      | .dndCancelled => (.idle, [.cancel])
      | .actionAccepted a => (.dragging applet a.copy, [])
      | _ => (.dragging applet copy, [])
  | .pressed start =>
      match ev with
      | .cursorMoved pos =>
          let p := pos.getD ⟨0, 0⟩
          let d_y := p.y - start.y
          let d_x := p.x - start.x
          let distance_squared := d_y * d_y + d_x * d_x
          if distance_squared > DRAG_THRESHOLD then
            (.dragging path false,
             [.createDndSource, .startDnd [MIME_TYPE] DndActionSet.copyMove path])
          else (.pressed start, [])
      | _ => (.pressed start, [])

/-- Run the drag-source machine over a list of events, accumulating outputs. -/
def runSrc (path : String) (st : DraggingState) : List SrcEvent → DraggingState × List SrcOut
  | [] => (st, [])
  | e :: es =>
      let r1 := srcOnEvent path st e
      let r2 := runSrc path r1.1 es
      (r2.1, r1.2 ++ r2.2)

/-- Whether an output is the `StartDnd` side effect. -/
def SrcOut.isStartDnd : SrcOut → Bool
  | .startDnd _ _ _ => true
  | _ => false

/-- Whether an event is a press. -/
def SrcEvent.isPress : SrcEvent → Bool
  | .press _ _ => true
  | _ => false

/-! Drag-destination state machine, from `src/widgets/group.rs`. -/

/-- Widget bounds; `Rectangle::contains` uses half-open intervals. -/
structure Rect where
  x : ℚ
  y : ℚ
  width : ℚ
  height : ℚ
  deriving DecidableEq, Repr

/-- Point-in-rectangle test (`iced` `Rectangle::contains`). -/
def Rect.containsPt (r : Rect) (px py : ℚ) : Bool :=
  r.x ≤ px && px < r.x + r.width && r.y ≤ py && py < r.y + r.height

/-- Drag-destination widget state (`DndOfferState` in `src/widgets/group.rs`). -/
inductive DndOfferState
  | idle
  | outsideWidget (mime_types : List String) (action : DndActionSet)
  | handlingOffer (mime_types : List String) (action : DndActionSet)
  | dropped
  deriving DecidableEq, Repr

/-- Compositor data-offer events observed by a drop target. Payload bytes are
modelled as a list of byte values. -/
inductive GroupEvent
  | sourceActions (a : DndActionSet)
  | enter (x y : ℚ) (mime_types : List String)
  | motion (x y : ℚ)
  | leave
  | dropPerformed
  | dndData (mime_type : String) (data : List Nat)
  | other

/-- Messages published by the drop target: the protocol commands produced via
`on_dnd_command_produced` and the application callbacks. -/
inductive GrpOut
  | setActions (preferred accepted : DndActionSet)
  | accept (mime : Option String)
  | offer
  | leaveMsg
  | finishMsg (entry : DesktopEntry)
  | requestDndData (mime : String)
  | dndFinished
  deriving DecidableEq, Repr

/-- One step of the drag-destination machine, from `GroupButton::on_event`
(`src/widgets/group.rs`, the block guarded by all four callbacks being set).
The decoding pipeline applied to delivered bytes (UTF-8 → URI → file path →
desktop entry, which reads the filesystem) is abstracted as `decode`; a
decoding failure at any stage is `none`. -/
def groupOnEvent (decode : List Nat → Option DesktopEntry) (bounds : Rect)
    (st : DndOfferState) (ev : GroupEvent) : DndOfferState × List GrpOut :=
  match st with
  | .idle =>
      match ev with
      | .sourceActions a => (.outsideWidget [] a, [])
      | .enter x y mime_types =>
          if mime_types.any (fun m => m == MIME_TYPE) then
            if bounds.containsPt x y then
              (.handlingOffer mime_types DndActionSet.emptySet,
               [.setActions DndActionSet.moveOnly DndActionSet.moveOnly,
                .accept (some MIME_TYPE), .offer])
            else (.outsideWidget mime_types DndActionSet.emptySet, [])
          else (.idle, [])
      | _ => (.idle, [])
  | .outsideWidget mime_types action =>
      match ev with
      | .sourceActions a => (.outsideWidget mime_types a, [])
      | .motion x y =>
          if bounds.containsPt x y then
            (.handlingOffer mime_types DndActionSet.emptySet,
             [.setActions DndActionSet.moveOnly DndActionSet.moveOnly,
              .accept (some MIME_TYPE), .offer])
          else (.outsideWidget mime_types DndActionSet.emptySet, [])
      | .dropPerformed => (.idle, [])
      | .leave => (.idle, [])
      | _ => (.outsideWidget mime_types action, [])
  | .handlingOffer mime_types action =>
      match ev with
      | .motion x y =>
          if bounds.containsPt x y then
            (.handlingOffer mime_types DndActionSet.emptySet,
             [.setActions DndActionSet.moveOnly DndActionSet.moveOnly])
          else
            (.outsideWidget mime_types DndActionSet.emptySet,
             [.leaveMsg, .accept none])
      | .leave => (.idle, [.leaveMsg])
      | .sourceActions a =>
          (.handlingOffer mime_types a,
           [.setActions DndActionSet.moveOnly DndActionSet.moveOnly])
      | .dropPerformed =>
          (.dropped,
           [.setActions DndActionSet.moveOnly DndActionSet.moveOnly,
            .accept (some MIME_TYPE), .requestDndData MIME_TYPE])
      | _ => (.handlingOffer mime_types action, [])
  | .dropped =>
      match ev with
      | .dndData mime_type data =>
          if mime_type == MIME_TYPE then
            match decode data with
            | some entry => (.idle, [.finishMsg entry, .dndFinished])
            | none => (.idle, [])
          else (.idle, [])
      | .leave => (.idle, [.leaveMsg])
      | _ => (.dropped, [])

/-! Helper lemmas about the embedding. -/

theorem usizeSub1_zero : usizeSub1 0 = 2 ^ 64 - 1 := by
  have h : (2 : Nat) ^ 64 - 1 < 2 ^ 64 := by norm_num
  simp [usizeSub1, USIZE_MOD, Nat.mod_eq_of_lt h]

theorem usizeSub1_of_pos {i : Nat} (h1 : 1 ≤ i) (h2 : i < 2 ^ 64) :
    usizeSub1 i = i - 1 := by
  unfold usizeSub1 USIZE_MOD
  have he : i + (2 ^ 64 - 1) = (i - 1) + 2 ^ 64 := by omega
  rw [he, Nat.add_mod_right, Nat.mod_eq_of_lt (by omega)]

theorem listModify_length (f : α → α) : ∀ (l : List α) (j : Nat),
    (listModify f l j).length = l.length
  | [], _ => rfl
  | _ :: _, 0 => rfl
  | _ :: as, n + 1 => by simp [listModify, listModify_length f as n]

theorem listModify_get?_self (f : α → α) : ∀ (l : List α) (j : Nat),
    (listModify f l j).get? j = (l.get? j).map f
  | [], _ => by simp [listModify]
  | _ :: _, 0 => rfl
  | _ :: as, n + 1 => by
      simp only [listModify, List.get?_cons_succ]
      exact listModify_get?_self f as n

theorem listModify_of_le (f : α → α) : ∀ (l : List α) (j : Nat),
    l.length ≤ j → listModify f l j = l
  | [], _, _ => rfl
  | a :: as, 0, h => by simp at h
  | a :: as, n + 1, h => by
      simp only [List.length_cons, Nat.add_le_add_iff_right] at h
      simp [listModify, listModify_of_le f as n h]

theorem strLeB_total : ∀ as bs : List Char, strLeB as bs = true ∨ strLeB bs as = true
  | [], _ => .inl rfl
  | _ :: _, [] => .inr rfl
  | a :: as, b :: bs => by
      rcases Nat.lt_trichotomy a.toNat b.toNat with h | h | h
      · exact .inl (by rw [strLeB, if_pos h])
      · have hab : ¬ a.toNat < b.toNat := by omega
        have hba : ¬ b.toNat < a.toNat := by omega
        rcases strLeB_total as bs with ih | ih
        · exact .inl (by rw [strLeB, if_neg hab, if_neg hba]; exact ih)
        · exact .inr (by rw [strLeB, if_neg hba, if_neg hab]; exact ih)
      · exact .inr (by rw [strLeB, if_pos h])

theorem strLeB_trans : ∀ as bs cs : List Char,
    strLeB as bs = true → strLeB bs cs = true → strLeB as cs = true
  | [], _, _, _, _ => rfl
  | _ :: _, [], _, h1, _ => by simp [strLeB] at h1
  | _ :: _, _ :: _, [], _, h2 => by simp [strLeB] at h2
  | a :: as, b :: bs, c :: cs, h1, h2 => by
      rw [strLeB] at h1 h2 ⊢
      by_cases hab : a.toNat < b.toNat
      · by_cases hbc : b.toNat < c.toNat
        · rw [if_pos (by omega)]
        · by_cases hcb : c.toNat < b.toNat
          · rw [if_neg hbc, if_pos hcb] at h2
            exact absurd h2 (by simp)
          · rw [if_pos (by omega)]
      · by_cases hba : b.toNat < a.toNat
        · rw [if_neg hab, if_pos hba] at h1
          exact absurd h1 (by simp)
        · rw [if_neg hab, if_neg hba] at h1
          by_cases hbc : b.toNat < c.toNat
          · rw [if_pos (by omega)]
          · by_cases hcb : c.toNat < b.toNat
            · rw [if_neg hbc, if_pos hcb] at h2
              exact absurd h2 (by simp)
            · rw [if_neg hbc, if_neg hcb] at h2
              rw [if_neg (by omega), if_neg (by omega)]
              exact strLeB_trans as bs cs h1 h2

instance : IsTotal DesktopEntry nameLe :=
  ⟨fun a b => strLeB_total a.name.data b.name.data⟩

instance : IsTrans DesktopEntry nameLe :=
  ⟨fun _ _ _ h1 h2 => strLeB_trans _ _ _ h1 h2⟩

/-! Concrete fixtures used by witnesses and counterexamples. They replay the
concrete scenario of the specification: a user group with an Office category
filter and a text-editor entry. -/

/-- A user group with `filter = Categories{categories:["Office"], include:[], exclude:[]}`. -/
def gOffice : AppGroup :=
  { name := "cosmic-office", icon := "folder-symbolic",
    filter := .categories ["Office"] [] [] }

/-- A configuration holding the single user group `gOffice` (combined index 1). -/
def cfg1 : AppLibraryConfig := { groups := [gOffice] }

/-- The entry `{id:"org.example.Text", categories:"Office;TextEditor;"}`. -/
def eText : DesktopEntry :=
  { id := "org.example.Text", name := "Text", exec := some "text",
    categories := some "Office;TextEditor;", no_display := false }

/-- An entry displayed as "a". -/
def eA : DesktopEntry :=
  { id := "a.app", name := "a", exec := some "e", categories := none, no_display := false }

/-- An entry displayed as "B". -/
def eB : DesktopEntry :=
  { id := "b.app", name := "B", exec := some "e", categories := none, no_display := false }

/-! Claim C1. -/

/-- Claim C1, counterexample: with one user group whose `Office` category
filter matches the entry, `filtered(0, "", [entry])` still returns the entry —
the Home result is not restricted to entries matching no user-defined group's
filter (the source applies only Home's own `None` filter, which matches
everything). -/
theorem C1_home_exclusivity_counterexample :
    gOffice ∈ cfg1.groups ∧ gOffice.matches eText = true ∧
    eText ∈ cfg1.filtered 0 "" [eText] := by
  refine ⟨by decide, by decide, by decide⟩

/-- Claim C1, amended: `filtered` with group index 0 applies the Home
pseudo-group's `None` filter, which matches every entry; with empty search
text it returns every entry that has an `Exec` and is not `NoDisplay`
(regardless of user groups), and with non-empty search text exactly those such
entries whose name or category string case-insensitively contains the search
text. -/
theorem C1_home_filtered_amended (c : AppLibraryConfig) (input : String)
    (entries : List DesktopEntry) :
    c.filtered 0 input entries =
      entries.filter (fun de =>
        de.exec.isSome &&
          (!de.no_display && (decide (input.length = 0) || searchMatches de input))) := by
  rw [AppLibraryConfig.filtered, if_pos rfl, AppGroup.filtered]
  apply List.filter_congr
  intro de _
  have hm : HOME.matches de = true := rfl
  simp [keepEntry, hm]

/-! Claim C2. -/

/-- Claim C2: the code violates the claim. After
`remove_entry(1, "org.example.Text")` the id sits in the group's `exclude`
list, yet `filtered(1, "", [entry])` still returns the entry, because
`AppGroup::matches` destructures only `categories` and `include` and never
consults `exclude`. -/
theorem C2_exclude_ignored_eval :
    (cfg1.removeEntry 1 "org.example.Text").groups =
      [{ name := "cosmic-office", icon := "folder-symbolic",
         filter := .categories ["Office"] ["org.example.Text"] [] }] ∧
    (cfg1.removeEntry 1 "org.example.Text").filtered 1 "" [eText] = [eText] := by
  refine ⟨by decide, by decide⟩

/-! Claim C6. -/

/-- Claim C6: every mutation called with group index 0 or with an index
greater than the number of user groups leaves the configuration unchanged
(under release-build wrap-around of the unsigned `i - 1`), and no error is
reported. -/
theorem C6_out_of_range_mutations_noop (c : AppLibraryConfig) (i : Nat)
    (name id : String) (hlen : c.groups.length < 2 ^ 64) (hi : i < 2 ^ 64)
    (h : i = 0 ∨ c.groups.length < i) :
    c.remove i = c ∧ c.setName i name = c ∧
    c.addEntry i id = c ∧ c.removeEntry i id = c := by
  have hge : c.groups.length ≤ usizeSub1 i := by
    rcases h with h | h
    · subst h; rw [usizeSub1_zero]; omega
    · rw [usizeSub1_of_pos (by omega) hi]; omega
  have hnot : ¬ usizeSub1 i < c.groups.length := not_lt.mpr hge
  refine ⟨?_, ?_, ?_, ?_⟩
  · rw [AppLibraryConfig.remove, if_neg hnot]
  · rw [AppLibraryConfig.setName, if_neg hnot]
  · rw [AppLibraryConfig.addEntry, if_neg hnot]
  · rw [AppLibraryConfig.removeEntry]
    simp only [listModify_of_le _ _ _ hge]
    rw [if_neg hnot]

/-- Claim C6, witness at index 0 on a one-group configuration. -/
theorem C6_out_of_range_mutations_noop_witness :
    cfg1.groups.length < 2 ^ 64 ∧
    (cfg1.remove 0 = cfg1 ∧ cfg1.setName 0 "x" = cfg1 ∧
     cfg1.addEntry 0 "y" = cfg1 ∧ cfg1.removeEntry 0 "y" = cfg1) :=
  ⟨by decide,
   C6_out_of_range_mutations_noop cfg1 0 "x" "y" (by decide) (by decide) (Or.inl rfl)⟩

/-! Claim C7. -/

/-- Claim C7: on a `Categories` group, `add_entry(g, id)` followed by
`remove_entry(g, id)` leaves `id` exactly once in the group's `exclude` list
and absent from `include` (a non-trivial round trip even from the "neither"
state), and `add_entry` itself leaves `id` exactly once in `include` (no
duplicate insertion). -/
theorem C7_add_remove_round_trip (c : AppLibraryConfig) (i : Nat)
    (id nm ic : String) (cats exc inc : List String)
    (h1 : 1 ≤ i) (h2 : i < 2 ^ 64)
    (hg : c.groups.get? (i - 1) = some ⟨nm, ic, .categories cats exc inc⟩) :
    ((c.addEntry i id).removeEntry i id).groups.get? (i - 1) =
      some ⟨nm, ic, FilterType.categories cats
        (exc.filter (fun x => x != id) ++ [id])
        (inc.filter (fun x => x != id))⟩ ∧
    (exc.filter (fun x => x != id) ++ [id]).count id = 1 ∧
    id ∉ inc.filter (fun x => x != id) ∧
    (c.addEntry i id).groups.get? (i - 1) =
      some ⟨nm, ic, FilterType.categories cats
        (exc.filter (fun x => x != id))
        (inc.filter (fun x => x != id) ++ [id])⟩ ∧
    (inc.filter (fun x => x != id) ++ [id]).count id = 1 := by
  have hu : usizeSub1 i = i - 1 := usizeSub1_of_pos h1 h2
  have hlt : i - 1 < c.groups.length := by
    by_contra hcon
    rw [List.get?_eq_none.mpr (le_of_not_lt hcon)] at hg
    exact Option.noConfusion hg
  have hmemfilter : ∀ l : List String, id ∉ l.filter (fun x => x != id) := by
    intro l hmem
    have := (List.mem_filter.mp hmem).2
    simp at this
  have hcount0 : ∀ l : List String, (l.filter (fun x => x != id)).count id = 0 :=
    fun l => List.count_eq_zero.mpr (hmemfilter l)
  have hcount : ∀ l : List String, (l.filter (fun x => x != id) ++ [id]).count id = 1 := by
    intro l
    rw [List.count_append, hcount0 l]
    simp
  have hadd : (c.addEntry i id).groups.get? (i - 1) =
      some ⟨nm, ic, FilterType.categories cats
        (exc.filter (fun x => x != id))
        (inc.filter (fun x => x != id) ++ [id])⟩ := by
    rw [AppLibraryConfig.addEntry, hu, if_pos hlt]
    simp only [listModify_get?_self, hg, Option.map_some]
    rfl
  have hlen1 : (c.addEntry i id).groups.length = c.groups.length := by
    rw [AppLibraryConfig.addEntry, hu, if_pos hlt]
    simp [listModify_length]
  have hrem : ((c.addEntry i id).removeEntry i id).groups.get? (i - 1) =
      some ⟨nm, ic, FilterType.categories cats
        (exc.filter (fun x => x != id) ++ [id])
        (inc.filter (fun x => x != id))⟩ := by
    rw [AppLibraryConfig.removeEntry, hu]
    rw [if_pos (by rw [listModify_length, hlen1]; exact hlt)]
    rw [listModify_get?_self, listModify_get?_self, hadd]
    show some (AppLibraryConfig.removeEntryGroupAgain id (AppLibraryConfig.removeEntryGroup id
      (AppGroup.mk nm ic (FilterType.categories cats
        (exc.filter (fun x => x != id))
        (inc.filter (fun x => x != id) ++ [id]))))) = _
    simp only [AppLibraryConfig.removeEntryGroup, AppLibraryConfig.removeEntryGroupAgain]
    simp [List.filter_filter, List.filter_singleton, Bool.and_self, bne_self_eq_false]
  exact ⟨hrem, hcount exc, hmemfilter inc, hadd, hcount inc⟩

/-- Claim C7, witness: the round trip on the Office group starting from the
"neither" state puts the id exactly once into `exclude`. -/
theorem C7_add_remove_round_trip_witness :
    cfg1.groups.get? 0 = some ⟨"cosmic-office", "folder-symbolic",
      .categories ["Office"] [] []⟩ ∧
    ((cfg1.addEntry 1 "org.example.Text").removeEntry 1 "org.example.Text").groups.get? 0 =
      some ⟨"cosmic-office", "folder-symbolic", FilterType.categories ["Office"]
        (([] : List String).filter (fun x => x != "org.example.Text") ++ ["org.example.Text"])
        (([] : List String).filter (fun x => x != "org.example.Text"))⟩ :=
  ⟨by decide,
   (C7_add_remove_round_trip cfg1 1 "org.example.Text" "cosmic-office" "folder-symbolic"
      ["Office"] [] [] (by decide) (by decide) (by decide)).1⟩

/-! Claim C10. -/

/-- Claim C10: `add(name)` creates a group with an empty `AppIds` id-list
filter; for an `AppIds` group an entry matches exactly when its id is in the
list; `add_entry` appends the id only when absent; `remove_entry` deletes it.
The `add_entry`/`remove_entry` equations show the `AppIds` constructor is
preserved, so the `Categories` include/exclude semantics never apply to a
group created by `add`. -/
theorem C10_appids_groups (c : AppLibraryConfig) (i : Nat) (name id nm ic : String)
    (ids : List String) (e : DesktopEntry)
    (h1 : 1 ≤ i) (h2 : i < 2 ^ 64)
    (hg : c.groups.get? (i - 1) = some ⟨nm, ic, .appIds ids⟩) :
    (c.add name).groups = c.groups ++
      [{ name := name, icon := "folder-symbolic", filter := .appIds [] }] ∧
    (AppGroup.matches ⟨nm, ic, .appIds ids⟩ e = true ↔ e.id ∈ ids) ∧
    (c.addEntry i id).groups.get? (i - 1) =
      some ⟨nm, ic, FilterType.appIds (if id ∈ ids then ids else ids ++ [id])⟩ ∧
    (c.removeEntry i id).groups.get? (i - 1) =
      some ⟨nm, ic, FilterType.appIds (ids.filter (fun x => x != id))⟩ := by
  have hu : usizeSub1 i = i - 1 := usizeSub1_of_pos h1 h2
  have hlt : i - 1 < c.groups.length := by
    by_contra hcon
    rw [List.get?_eq_none.mpr (le_of_not_lt hcon)] at hg
    exact Option.noConfusion hg
  refine ⟨rfl, ?_, ?_, ?_⟩
  · simp only [AppGroup.matches, List.any_eq_true, beq_iff_eq]
    constructor
    · rintro ⟨x, hx, rfl⟩; exact hx
    · intro hx; exact ⟨e.id, hx, rfl⟩
  · rw [AppLibraryConfig.addEntry, hu, if_pos hlt]
    rw [listModify_get?_self, hg]
    show some (AppLibraryConfig.addEntryGroup id (AppGroup.mk nm ic (FilterType.appIds ids))) = _
    simp only [AppLibraryConfig.addEntryGroup]
    by_cases hmem : id ∈ ids
    · have hall : ids.all (fun s => s != id) = false := by
        apply Bool.eq_false_iff.mpr
        intro hal
        rw [List.all_eq_true] at hal
        exact absurd rfl (bne_iff_ne.mp (hal id hmem))
      rw [hall]
      simp [hmem]
    · have hall : ids.all (fun s => s != id) = true := by
        simp only [List.all_eq_true, bne_iff_ne]
        intro x hx hxe
        exact hmem (hxe ▸ hx)
      rw [hall]
      simp [hmem]
  · rw [AppLibraryConfig.removeEntry, hu]
    rw [if_pos (by rw [listModify_length]; exact hlt)]
    rw [listModify_get?_self, listModify_get?_self, hg]
    show some (AppLibraryConfig.removeEntryGroupAgain id (AppLibraryConfig.removeEntryGroup id
      (AppGroup.mk nm ic (FilterType.appIds ids)))) = _
    simp only [AppLibraryConfig.removeEntryGroup, AppLibraryConfig.removeEntryGroupAgain]
    simp [List.filter_filter, Bool.and_self]

/-- Claim C10, witness: a freshly created group, a matching test, the
no-duplicate append and the deletion, on concrete data. -/
theorem C10_appids_groups_witness :
    (((⟨[⟨"g", "i", .appIds ["a.app"]⟩]⟩ : AppLibraryConfig).add "New").groups =
      [⟨"g", "i", .appIds ["a.app"]⟩] ++
        [{ name := "New", icon := "folder-symbolic", filter := .appIds [] }]) ∧
    (AppGroup.matches ⟨"g", "i", .appIds ["a.app"]⟩ eA = true ↔ eA.id ∈ ["a.app"]) ∧
    ((⟨[⟨"g", "i", .appIds ["a.app"]⟩]⟩ : AppLibraryConfig).addEntry 1 "b.app").groups.get? 0 =
      some ⟨"g", "i", FilterType.appIds
        (if "b.app" ∈ ["a.app"] then ["a.app"] else ["a.app"] ++ ["b.app"])⟩ ∧
    ((⟨[⟨"g", "i", .appIds ["a.app"]⟩]⟩ : AppLibraryConfig).removeEntry 1 "b.app").groups.get? 0 =
      some ⟨"g", "i", FilterType.appIds (["a.app"].filter (fun x => x != "b.app"))⟩ :=
  C10_appids_groups ⟨[⟨"g", "i", .appIds ["a.app"]⟩]⟩ 1 "New" "b.app" "g" "i" ["a.app"] eA
    (by decide) (by decide) (by decide)

/-! Claim C9. -/

/-- The ordering the specification claims for the recomputed entry list:
case-insensitive lexicographic comparison of display names. This definition
follows the spec's words, to be compared with the code's order `nameLe`. -/
def specCiLe (a b : DesktopEntry) : Prop :=
  strLeB (rustLower a.name) (rustLower b.name) = true

instance : DecidableRel specCiLe :=
  fun a b => decEq (strLeB (rustLower a.name) (rustLower b.name)) true

/-- Claim C9, counterexample: sorting entries named "a" and "B" produces
["B", "a"] (byte order puts "B" before "a"), which is not ordered
case-insensitively (lowercased, "b" does not precede "a"). -/
theorem C9_ci_order_counterexample :
    filterAppsResult cfg1 0 "" [eA, eB] = [eB, eA] ∧
    ¬ List.Sorted specCiLe (filterAppsResult cfg1 0 "" [eA, eB]) := by
  constructor
  · decide
  · intro h
    have h' : specCiLe eB eA := by
      have heq : filterAppsResult cfg1 0 "" [eA, eB] = [eB, eA] := by decide
      rw [heq] at h
      exact (List.sorted_cons.mp h).1 eA (by simp)
    exact absurd h' (by decide)

/-- Claim C9, amended: for every group index and search text, the entry list
produced by the filter recomputation is sorted lexicographically by display
name under the code's case-sensitive (code-point/byte) order. -/
theorem C9_sorted_by_name_amended (c : AppLibraryConfig) (i : Nat) (input : String)
    (entries : List DesktopEntry) :
    List.Sorted nameLe (filterAppsResult c i input entries) :=
  List.sorted_insertionSort nameLe (c.filtered i input entries)

/-! Claim C8. -/

theorem filterApps_of_waiting (st : SchedState) (h : st.waiting_for_filtered = true) :
    filterApps st = (st, false) := by
  rw [filterApps, if_pos h]

theorem filterApps_of_not_waiting (st : SchedState) (h : st.waiting_for_filtered = false) :
    filterApps st = ({ st with waiting_for_filtered := true,
                               inflight := st.inflight ++ [st.search_value] }, true) := by
  rw [filterApps, if_neg (by rw [h]; exact Bool.false_ne_true)]

theorem filterApps_inv (st : SchedState) (h : SchedInv st) : SchedInv (filterApps st).1 := by
  by_cases hw : st.waiting_for_filtered = true
  · rw [filterApps_of_waiting st hw]; exact h
  · have hw' : st.waiting_for_filtered = false := by
      cases hmm : st.waiting_for_filtered
      · rfl
      · exact absurd hmm hw
    have hnil : st.inflight = [] := by
      by_contra hne
      exact hw (h.2.mpr hne)
    rw [filterApps_of_not_waiting st hw']
    refine ⟨by simp [hnil], by simp [hnil]⟩

theorem schedStep_inv (st : SchedState) (ev : SchedEvent) (h : SchedInv st) :
    SchedInv (schedStep st ev) := by
  cases ev with
  | request => exact filterApps_inv st h
  | setSearch s =>
      exact filterApps_inv { st with search_value := s } ⟨h.1, h.2⟩
  | complete s =>
      rw [schedStep]
      by_cases hh : st.inflight.head? = some s
      · rw [if_pos hh]
        have hinv1 : SchedInv { st with waiting_for_filtered := false,
                                        inflight := st.inflight.drop 1 } := by
          rcases hl : st.inflight with _ | ⟨t, ts⟩
          · refine ⟨by simp, by simp⟩
          · have hlen := h.1
            rw [hl] at hlen
            simp only [List.length_cons] at hlen
            have hts : ts = [] := List.length_eq_zero.mp (by omega)
            subst hts
            refine ⟨by simp [hl], by simp [hl]⟩
        rw [onFilterApps]
        by_cases hne : st.search_value ≠ s
        · rw [if_pos hne]
          exact filterApps_inv _ hinv1
        · rw [if_neg hne]
          exact hinv1
      · rw [if_neg hh]
        exact h

/-- Claim C8: a recompute request while one is in flight starts no task; a
request while none is in flight starts exactly one and sets the flag; a
completion clears the flag and requests anew exactly when the current search
text differs from the one the completed task was started with; and along every
event trace at most one task is ever in flight (the flag tracks it exactly). -/
theorem C8_debounced_recompute :
    (∀ st : SchedState, st.waiting_for_filtered = true → filterApps st = (st, false)) ∧
    (∀ st : SchedState, st.waiting_for_filtered = false →
       filterApps st = ({ st with waiting_for_filtered := true,
                                  inflight := st.inflight ++ [st.search_value] }, true)) ∧
    (∀ (st : SchedState) (input : String),
       (onFilterApps st input).2 = decide (st.search_value ≠ input) ∧
       (onFilterApps st input).1.waiting_for_filtered = decide (st.search_value ≠ input)) ∧
    (∀ (st : SchedState) (evs : List SchedEvent),
       SchedInv st → SchedInv (evs.foldl schedStep st)) := by
  refine ⟨filterApps_of_waiting, filterApps_of_not_waiting, ?_, ?_⟩
  · intro st input
    rw [onFilterApps]
    by_cases hne : st.search_value ≠ input
    · rw [if_pos hne]
      rw [filterApps_of_not_waiting _ rfl]
      simp [hne]
    · rw [if_neg hne]
      simp [hne]
  · intro st evs
    induction evs generalizing st with
    | nil => exact id
    | cons e es ih => exact fun h => ih (schedStep st e) (schedStep_inv st e h)

instance (st : SchedState) : Decidable (SchedInv st) :=
  decidable_of_iff
    (st.inflight.length ≤ 1 ∧ (st.waiting_for_filtered = true ↔ st.inflight ≠ [])) Iff.rfl

/-- Claim C8, witness: the invariant holds initially and after a concrete
trace (set the search text, complete the task, make another request). -/
theorem C8_debounced_recompute_witness :
    SchedInv ⟨false, "", []⟩ ∧
    SchedInv (List.foldl schedStep ⟨false, "", []⟩
      [SchedEvent.setSearch "a", SchedEvent.complete "a", SchedEvent.request]) :=
  ⟨by decide, C8_debounced_recompute.2.2.2 ⟨false, "", []⟩
    [SchedEvent.setSearch "a", SchedEvent.complete "a", SchedEvent.request] (by decide)⟩

/-! Claim C3. -/

/-- Application state used by the drag-finish fixtures: the Office group is
the current group (combined index 1) and the text entry is being dragged. -/
def stDrag : AppState :=
  { config := cfg1, cur_group := 1, entry_path_input := [eText], dnd_icon := some 0 }

/-- Claim C3, counterexample: a press-move-finish drag with no
accepted-action event emits `finish(false)` (the recorded boolean starts as
`false` and tracks `A.contains(Copy)`, not `Move`), and the application's
finish handler with a `false` value does remove the dragged entry from the
current group — removal occurs even though no action was ever accepted. -/
theorem C3_no_accept_removal_counterexample :
    (runSrc "p" (.pressed ⟨0, 0⟩) [.cursorMoved (some ⟨6, 0⟩), .dndFinished]).2 =
      [.createDndSource, .startDnd [MIME_TYPE] DndActionSet.copyMove "p", .finish false] ∧
    finishDrag false stDrag ≠ stDrag ∧
    (finishDrag false stDrag).config.groups =
      [{ name := "cosmic-office", icon := "folder-symbolic",
         filter := .categories ["Office"] ["org.example.Text"] [] }] := by
  refine ⟨?_, by decide, by decide⟩
  norm_num [runSrc, srcOnEvent, DRAG_THRESHOLD]

/-- Claim C3, amended: an accepted-action event records `A.contains(Copy)` in
the drag state; the finished event emits `finish` with that recorded value;
the application removes the dragged entry from the current group exactly when
the value is `false` (so with no accepted-action event before finish, the
initial `false` is emitted and removal occurs; a drag whose last accepted
action set contains Copy leaves the origin group unchanged). -/
theorem C3_finish_copy_semantics_amended (path applet : String) (b : Bool)
    (A : DndActionSet) (st : AppState) :
    srcOnEvent path (.dragging applet b) (.actionAccepted A) = (.dragging applet A.copy, []) ∧
    srcOnEvent path (.dragging applet b) .dndFinished = (.idle, [.finish b]) ∧
    finishDrag true st = st ∧
    (∀ info : DesktopEntry,
       st.dnd_icon.bind (fun i => st.entry_path_input.get? i) = some info →
       finishDrag false st =
         { st with config := st.config.removeEntry st.cur_group info.id,
                   dnd_icon := none }) := by
  refine ⟨rfl, rfl, rfl, ?_⟩
  intro info hinfo
  rw [finishDrag, if_neg Bool.false_ne_true, hinfo]

/-- Claim C3, amended witness: the accepted-copy recording and the removal on
`finish(false)` at concrete inputs. -/
theorem C3_finish_copy_semantics_amended_witness :
    srcOnEvent "p" (.dragging "p" false) (.actionAccepted ⟨true, true, false⟩) =
      (.dragging "p" (⟨true, true, false⟩ : DndActionSet).copy, []) ∧
    finishDrag false stDrag =
      { stDrag with config := stDrag.config.removeEntry stDrag.cur_group eText.id,
                    dnd_icon := none } :=
  ⟨(C3_finish_copy_semantics_amended "p" "p" false ⟨true, true, false⟩ stDrag).1,
   (C3_finish_copy_semantics_amended "p" "p" false ⟨true, true, false⟩ stDrag).2.2.2
     eText (by decide)⟩

/-! Claim C4. -/

theorem srcOnEvent_safe (path : String) (st : DraggingState) (e : SrcEvent)
    (hst : st = .idle ∨ ∃ a b, st = .dragging a b) (he : e.isPress = false) :
    (srcOnEvent path st e).2.countP SrcOut.isStartDnd = 0 ∧
    ((srcOnEvent path st e).1 = .idle ∨ ∃ a b, (srcOnEvent path st e).1 = .dragging a b) := by
  rcases hst with rfl | ⟨a, b, rfl⟩
  · cases e with
    | press over pos =>
        cases over
        · exact ⟨rfl, Or.inl rfl⟩
        · exact absurd he (by simp [SrcEvent.isPress])
    | cursorMoved pos => exact ⟨rfl, Or.inl rfl⟩
    | dndFinished => exact ⟨rfl, Or.inl rfl⟩
    | dndCancelled => exact ⟨rfl, Or.inl rfl⟩
    | actionAccepted A => exact ⟨rfl, Or.inl rfl⟩
    | other => exact ⟨rfl, Or.inl rfl⟩
  · cases e with
    | press over pos => exact ⟨rfl, Or.inr ⟨a, b, rfl⟩⟩
    | cursorMoved pos => exact ⟨rfl, Or.inr ⟨a, b, rfl⟩⟩
    | dndFinished => exact ⟨rfl, Or.inl rfl⟩
    | dndCancelled => exact ⟨rfl, Or.inl rfl⟩
    | actionAccepted A => exact ⟨rfl, Or.inr ⟨a, A.copy, rfl⟩⟩
    | other => exact ⟨rfl, Or.inr ⟨a, b, rfl⟩⟩

theorem runSrc_safe_no_start (path : String) : ∀ (events : List SrcEvent) (st : DraggingState),
    (st = .idle ∨ ∃ a b, st = .dragging a b) →
    (∀ e ∈ events, e.isPress = false) →
    (runSrc path st events).2.countP SrcOut.isStartDnd = 0
  | [], _, _, _ => by simp [runSrc]
  | e :: es, st, hst, hnp => by
      rw [runSrc]
      simp only [List.countP_append]
      have hsafe := srcOnEvent_safe path st e hst (hnp e (by simp))
      rw [hsafe.1,
        runSrc_safe_no_start path es (srcOnEvent path st e).1 hsafe.2
          (fun e' he' => hnp e' (by simp [he']))]

theorem runSrc_pressed_le_one (path : String) :
    ∀ (events : List SrcEvent) (p0 : Point),
    (∀ e ∈ events, e.isPress = false) →
    (runSrc path (.pressed p0) events).2.countP SrcOut.isStartDnd ≤ 1
  | [], _, _ => by simp [runSrc]
  | e :: es, p0, hnp => by
      rw [runSrc]
      simp only [List.countP_append]
      have hes : ∀ e' ∈ es, e'.isPress = false := fun e' he' => hnp e' (by simp [he'])
      cases e with
      | cursorMoved pos =>
          simp only [srcOnEvent]
          by_cases hgt : ((pos.getD ⟨0, 0⟩).y - p0.y) * ((pos.getD ⟨0, 0⟩).y - p0.y) +
              ((pos.getD ⟨0, 0⟩).x - p0.x) * ((pos.getD ⟨0, 0⟩).x - p0.x) > DRAG_THRESHOLD
          · rw [if_pos hgt]
            have h0 := runSrc_safe_no_start path es (.dragging path false)
              (Or.inr ⟨path, false, rfl⟩) hes
            simp only [h0]
            simp [List.countP_cons, SrcOut.isStartDnd]
          · rw [if_neg hgt]
            simpa using runSrc_pressed_le_one path es p0 hes
      | press over pos =>
          have hp := hnp (SrcEvent.press over pos) (List.mem_cons_self _ _)
          simp [SrcEvent.isPress] at hp
      | dndFinished => simpa [srcOnEvent] using runSrc_pressed_le_one path es p0 hes
      | dndCancelled => simpa [srcOnEvent] using runSrc_pressed_le_one path es p0 hes
      | actionAccepted A => simpa [srcOnEvent] using runSrc_pressed_le_one path es p0 hes
      | other => simpa [srcOnEvent] using runSrc_pressed_le_one path es p0 hes

/-- Claim C4: from `Pressed(p0)`, a move event transitions to `Dragging` if
and only if the squared pointer displacement strictly exceeds the constant
`DRAG_THRESHOLD = 25.0` (compared unsquared); the transition emits the
create-dnd-source message and the `StartDnd` action with mime types
`[text/uri-list]` and actions `{copy, move}`; and over any press-free event
continuation the `StartDnd` side effect occurs at most once. -/
theorem C4_threshold_activation (path : String) (p0 pos : Point)
    (events : List SrcEvent) (hnp : ∀ e ∈ events, e.isPress = false) :
    ((srcOnEvent path (.pressed p0) (.cursorMoved (some pos))).1 =
        DraggingState.dragging path false ↔
      (pos.y - p0.y) * (pos.y - p0.y) + (pos.x - p0.x) * (pos.x - p0.x) > DRAG_THRESHOLD) ∧
    ((pos.y - p0.y) * (pos.y - p0.y) + (pos.x - p0.x) * (pos.x - p0.x) > DRAG_THRESHOLD →
      srcOnEvent path (.pressed p0) (.cursorMoved (some pos)) =
        (.dragging path false,
         [.createDndSource, .startDnd [MIME_TYPE] DndActionSet.copyMove path])) ∧
    (runSrc path (.pressed p0) events).2.countP SrcOut.isStartDnd ≤ 1 := by
  refine ⟨?_, ?_, runSrc_pressed_le_one path events p0 hnp⟩
  · simp only [srcOnEvent, Option.getD_some]
    by_cases hgt : (pos.y - p0.y) * (pos.y - p0.y) + (pos.x - p0.x) * (pos.x - p0.x) >
        DRAG_THRESHOLD
    · rw [if_pos hgt]
      simp [hgt]
    · rw [if_neg hgt]
      simp [hgt]
  · intro hgt
    simp only [srcOnEvent, Option.getD_some]
    rw [if_pos hgt]

/-- Claim C4, witness: a displacement of 6 px activates the drag (36 > 25),
and a concrete press-free continuation emits at most one `StartDnd`. -/
theorem C4_threshold_activation_witness :
    (∀ e ∈ ([SrcEvent.dndFinished] : List SrcEvent), e.isPress = false) ∧
    (((srcOnEvent "p" (.pressed ⟨0, 0⟩) (.cursorMoved (some ⟨6, 0⟩))).1 =
        DraggingState.dragging "p" false ↔
      ((0 : ℚ) - 0) * ((0 : ℚ) - 0) + ((6 : ℚ) - 0) * ((6 : ℚ) - 0) > DRAG_THRESHOLD) ∧
     (((0 : ℚ) - 0) * ((0 : ℚ) - 0) + ((6 : ℚ) - 0) * ((6 : ℚ) - 0) > DRAG_THRESHOLD →
       srcOnEvent "p" (.pressed ⟨0, 0⟩) (.cursorMoved (some ⟨6, 0⟩)) =
         (.dragging "p" false,
          [.createDndSource, .startDnd [MIME_TYPE] DndActionSet.copyMove "p"])) ∧
     (runSrc "p" (.pressed ⟨0, 0⟩) [SrcEvent.dndFinished]).2.countP SrcOut.isStartDnd ≤ 1) :=
  ⟨by decide, C4_threshold_activation "p" ⟨0, 0⟩ ⟨6, 0⟩ [SrcEvent.dndFinished] (by decide)⟩

/-! Claim C5. -/

/-- Claim C5: in the `Dropped` state, a `DndData` event whose mime type is not
`text/uri-list` or whose bytes fail to decode produces no output at all (in
particular no finish message and no `DndFinished` completion), and every
`DndData` event returns the machine to `Idle`. -/
theorem C5_dropped_data_mismatch (decode : List Nat → Option DesktopEntry)
    (bounds : Rect) (mime : String) (data : List Nat)
    (h : mime ≠ MIME_TYPE ∨ decode data = none) :
    (groupOnEvent decode bounds .dropped (.dndData mime data)).2 = [] ∧
    ∀ (mime' : String) (data' : List Nat),
      (groupOnEvent decode bounds .dropped (.dndData mime' data')).1 = .idle := by
  constructor
  · simp only [groupOnEvent]
    rcases h with h | h
    · rw [if_neg (by simpa using h)]
    · by_cases hm : (mime == MIME_TYPE) = true
      · rw [if_pos hm, h]
      · rw [if_neg hm]
  · intro mime' data'
    simp only [groupOnEvent]
    by_cases hm : (mime' == MIME_TYPE) = true
    · rw [if_pos hm]
      rcases hd : decode data' with _ | entry <;> simp [hd]
    · rw [if_neg hm]

/-- Claim C5, witness: an undecodable payload delivered in `Dropped` with a
wrong mime type produces nothing and the machine idles. -/
theorem C5_dropped_data_mismatch_witness :
    ("text/plain" ≠ MIME_TYPE ∨
      (fun _ : List Nat => (none : Option DesktopEntry)) [1] = none) ∧
    ((groupOnEvent (fun _ => none) ⟨0, 0, 10, 10⟩ .dropped
        (.dndData "text/plain" [1])).2 = [] ∧
     ∀ (mime' : String) (data' : List Nat),
       (groupOnEvent (fun _ => none) ⟨0, 0, 10, 10⟩ .dropped
         (.dndData mime' data')).1 = .idle) :=
  ⟨Or.inr rfl,
   C5_dropped_data_mismatch (fun _ => none) ⟨0, 0, 10, 10⟩ "text/plain" [1] (Or.inr rfl)⟩

end CosmicAppLibrary
